import Mathlib

/-!
Shallow embedding of the tockloader core (src/tockloader/main.py and
src/tockloader/app_tab.py) together with proofs of the frozen claims.

Modelling conventions:
* a Python `bytes` value is a `List Nat` whose entries are byte values;
* the serial device is an oracle: reads that the program performs are
  parameters (`acks i` is the i-th two-byte acknowledgement read inside the
  page-write loop, `rd a n` is what `_read_range a n` returns, `crcData` is
  what `_get_crc_internal_flash` returns);
* Python exceptions (IndexError, struct.error, KeyError, TockLoaderException)
  are the `PyErr` error side of `Except`;
* unbounded `while True:` loops take an explicit fuel argument and return
  `none` when the fuel is exhausted before the loop terminates.
-/

set_option maxRecDepth 100000
set_option maxHeartbeats 1000000

namespace Tockloader

abbrev Bytes := List Nat

/-- Python exceptions escaping the modelled code. -/
inductive PyErr
  | indexError
  | structError
  | keyError
  | exception
deriving DecidableEq, Repr

/-- main.py: ESCAPE_CHAR = 0xFC. -/
def ESCAPE_CHAR : Nat := 0xFC

/-- main.py: COMMAND_RESET = 0x05. -/
def COMMAND_RESET : Nat := 0x05

/-- main.py: COMMAND_WRITE_PAGE = 0x07. -/
def COMMAND_WRITE_PAGE : Nat := 0x07

/-- main.py: RESPONSE_OK = 0x15. -/
def RESPONSE_OK : Nat := 0x15

/-- main.py: SYNC_MESSAGE = bytes([0x00, ESCAPE_CHAR, COMMAND_RESET]). -/
def SYNC_MESSAGE : Bytes := [0x00, ESCAPE_CHAR, COMMAND_RESET]

/-- struct.pack of a u32 in little-endian byte order. -/
def u32le (n : Nat) : Bytes :=
  [n % 256, n / 256 % 256, n / 65536 % 256, n / 16777216 % 256]

/-- bytes.replace(bytes([0xFC]), bytes([0xFC, 0xFC])): double every escape byte. -/
def escape : Bytes → Bytes
  | [] => []
  | b :: rest => (if b = ESCAPE_CHAR then [ESCAPE_CHAR, ESCAPE_CHAR] else [b]) ++ escape rest

/-- Bytes transmitted by one iteration of the `_flash_binary` page loop
(main.py lines 486-506): the sync message, then the escaped concatenation of
the 4-byte little-endian page address and the page, then the two terminator
bytes.  Note the source applies `.replace` to `pkt` after the address bytes
have been prepended, so the address bytes are escaped together with the page. -/
def writePageFrame (address : Nat) (page : Bytes) : Bytes :=
  SYNC_MESSAGE ++ escape (u32le address ++ page) ++ [ESCAPE_CHAR, COMMAND_WRITE_PAGE]

/-- Modelled from the spec: the page-write frame as claim C1 words it, with the
escape doubling applied to the page only and the address bytes transmitted
verbatim.  Used solely for comparison against `writePageFrame`. -/
def writePageFrameClaimed (address : Nat) (page : Bytes) : Bytes :=
  SYNC_MESSAGE ++ u32le address ++ escape page ++ [ESCAPE_CHAR, COMMAND_WRITE_PAGE]

/-- Acknowledgement handling after a page write (main.py lines 509-526):
`ret[0]` on an empty read raises IndexError; a first byte other than
ESCAPE_CHAR returns False; `ret[1]` on a one-byte read raises IndexError; a
second byte other than RESPONSE_OK returns False; otherwise the loop goes on. -/
def ack_status : Bytes → Except PyErr Bool
  | [] => .error .indexError
  | r0 :: rest =>
    if r0 ≠ ESCAPE_CHAR then .ok false
    else
      match rest with
      | [] => .error .indexError
      | r1 :: _ => if r1 ≠ RESPONSE_OK then .ok false else .ok true

/-- The page loop of `TockLoader._flash_binary` starting at page index `i` with
`k` pages still to write.  Returns the list of (page address, page bytes)
writes that were issued and the loop outcome: `.ok true` when every page was
acknowledged, `.ok false` on a clean `return False`, `.error` when the Python
code would raise. -/
def flash_pages_go (acks : Nat → Bytes) (address : Nat) (binary : Bytes) :
    Nat → Nat → List (Nat × Bytes) × Except PyErr Bool
  | _, 0 => ([], .ok true)
  | i, k+1 =>
    match ack_status (acks i) with
    | .error e => ([(address + 512 * i, (binary.drop (512 * i)).take 512)], .error e)
    | .ok false => ([(address + 512 * i, (binary.drop (512 * i)).take 512)], .ok false)
    | .ok true =>
      ((address + 512 * i, (binary.drop (512 * i)).take 512) ::
          (flash_pages_go acks address binary (i+1) k).1,
        (flash_pages_go acks address binary (i+1) k).2)

/-- `TockLoader._flash_binary(address, binary)` (main.py lines 483-528): loop
over `len(binary) // 512` pages from page index 0. -/
def flash_pages (acks : Nat → Bytes) (address : Nat) (binary : Bytes) :
    List (Nat × Bytes) × Except PyErr Bool :=
  flash_pages_go acks address binary 0 (binary.length / 512)

/-- Table constant of the bit-reflected CRC-32 algorithm: the 32-bit
bit-reversal of the generator polynomial 0x104C11DB7. -/
def crc32_rev_poly : Nat := 0xEDB88320

/-- One bit step of the reflected CRC-32 update. -/
def crc32_update_bit (c : Nat) : Nat :=
  if c % 2 = 1 then (c / 2) ^^^ crc32_rev_poly else c / 2

/-- One byte step of the reflected CRC-32 update. -/
def crc32_update_byte (c b : Nat) : Nat :=
  Nat.iterate crc32_update_bit 8 (c ^^^ (b % 256))

/-- A crcmod-generated CRC function: the returned function xors the passed
initial value with `xorOut` before processing and xors the result with
`xorOut` afterwards (crcmod semantics for a reversed polynomial). -/
def crcmod_fun (xorOut : Nat) (initCrc : Nat) (data : Bytes) : Nat :=
  (data.foldl crc32_update_byte (initCrc ^^^ xorOut)) ^^^ xorOut

/-- The local CRC computed in `TockLoader._check_crc` (main.py line 585-586):
`crcmod.mkCrcFun(0x104c11db7, initCrc=0, xorOut=0xFFFFFFFF)` applied with an
explicit initial value of 0. -/
def crc_loader (data : Bytes) : Nat := crcmod_fun 0xFFFFFFFF 0 data

/-- Bit reversal of the low `32` bits of a natural number. -/
def bitrev32 (n : Nat) : Nat :=
  (List.range 32).foldl (fun acc i => 2 * acc + (n / 2 ^ i) % 2) 0

/-- Little-endian u32 decode of four bytes of a buffer starting at `off`
(struct.unpack of a 4-byte slice); callers guard the buffer length. -/
def u32at (buf : Bytes) (off : Nat) : Nat :=
  buf.getD off 0 % 256 + 256 * (buf.getD (off+1) 0 % 256) +
    65536 * (buf.getD (off+2) 0 % 256) + 16777216 * (buf.getD (off+3) 0 % 256)

/-- `TockLoader._check_crc` (main.py lines 577-593) given the bytes the
bootloader returned for the CRC request: `struct.unpack("<I", crc_data[0:4])`
raises struct.error when fewer than four bytes are available, otherwise the
comparison with the locally computed CRC decides the Boolean result. -/
def check_crc (binary : Bytes) (crc_data : Bytes) : Except PyErr Bool :=
  if crc_data.length < 4 then .error .structError
  else .ok (u32at crc_data 0 == crc_loader binary)

/-- Response handling of `TockLoader._issue_command` (main.py lines 454-479)
as a function of the bytes `ret` that `self.sp.read(2 + response_len)`
returned.  Mirrors the source: a read shorter than two bytes returns
`(False, bytes())`; a wrong first or second byte or a short payload returns
`(False, ret[0:2])`; success returns `(True, ret[2:])`. -/
def issue_command (response_len : Nat) (response_code : Nat) (ret : Bytes) :
    Bool × Bytes :=
  if ret.length < 2 then (false, [])
  else if ret.getD 0 0 ≠ ESCAPE_CHAR then (false, ret.take 2)
  else if ret.getD 1 0 ≠ response_code then (false, ret.take 2)
  else if ret.length ≠ 2 + response_len then (false, ret.take 2)
  else (true, ret.drop 2)

/-- Padding used by `flash_binary`, `replace_binary` and `append_binary`
(main.py lines 131-134): pad with 0xFF bytes up to the next multiple of 512,
leaving the binary unchanged when its length is already a multiple of 512. -/
def pad512 (b : Bytes) : Bytes :=
  if b.length % 512 = 0 then b else b ++ List.replicate (512 - b.length % 512) 0xFF

/-- Bootloader commands issued by an operation, at command granularity. -/
inductive Cmd
  | writePage (address : Nat) (page : Bytes)
  | crcFlash (address : Nat) (length : Nat)
  | erasePage (address : Nat)
deriving DecidableEq, Repr

/-- Outcome of `TockLoader.flash_binary`. -/
inductive FlashOutcome
  | done
  | failed
  | crashed (e : PyErr)
deriving DecidableEq, Repr

/-- `TockLoader.flash_binary(binary, address)` (main.py lines 125-160), after
bootloader entry: pad to a 512 multiple, write the pages, request the CRC over
the padded length and compare, then erase the page following the written
bytes.  Returns the trace of issued commands and the outcome. -/
def flash_binary (acks : Nat → Bytes) (crcData : Bytes) (binary : Bytes)
    (address : Nat) : List Cmd × FlashOutcome :=
  let padded := pad512 binary
  let r := flash_pages acks address padded
  let cmds := r.1.map (fun p => Cmd.writePage p.1 p.2)
  match r.2 with
  | .error e => (cmds, .crashed e)
  | .ok false => (cmds, .failed)
  | .ok true =>
    match check_crc padded crcData with
    | .error e => (cmds ++ [Cmd.crcFlash address padded.length], .crashed e)
    | .ok false => (cmds ++ [Cmd.crcFlash address padded.length], .failed)
    | .ok true =>
      (cmds ++ [Cmd.crcFlash address padded.length,
        Cmd.erasePage (address + padded.length)], .done)

/-- Fields of a version-1 Tock Binary Format header, in the order unpacked by
`TockLoader._parse_tbf_header` (main.py lines 604-631). -/
structure TbfFieldsV1 where
  total_size : Nat
  entry_offset : Nat
  rel_data_offset : Nat
  rel_data_size : Nat
  text_offset : Nat
  text_size : Nat
  got_offset : Nat
  got_size : Nat
  data_offset : Nat
  data_size : Nat
  bss_mem_offset : Nat
  bss_mem_size : Nat
  min_stack_len : Nat
  min_app_heap_len : Nat
  min_kernel_heap_len : Nat
  package_name_offset : Nat
  package_name_size : Nat
  checksum : Nat
deriving DecidableEq, Repr

/-- Result of `_parse_tbf_header`: the Python code returns a dict holding all
version-1 fields when `version == 1` and a dict holding only `version`
otherwise (accessing a version-1 field of the latter raises KeyError). -/
inductive ParsedTbf
  | v1 (fields : TbfFieldsV1)
  | other (version : Nat)
deriving DecidableEq, Repr

/-- Version stored in a parse result. -/
def ParsedTbf.version : ParsedTbf → Nat
  | .v1 _ => 1
  | .other v => v

/-- `TockLoader._parse_tbf_header(buffer)` (main.py lines 604-631):
`struct.unpack('<I', buffer[0:4])` needs four bytes, and for version 1
`struct.unpack('<IIIIIIIIIIIIIIIIII', buffer[4:76])` needs 76 bytes. -/
def parse_tbf_header (buf : Bytes) : Except PyErr ParsedTbf :=
  if buf.length < 4 then .error .structError
  else
    if u32at buf 0 = 1 then
      if buf.length < 76 then .error .structError
      else .ok (.v1 ⟨u32at buf 4, u32at buf 8, u32at buf 12, u32at buf 16,
        u32at buf 20, u32at buf 24, u32at buf 28, u32at buf 32, u32at buf 36,
        u32at buf 40, u32at buf 44, u32at buf 48, u32at buf 52, u32at buf 56,
        u32at buf 60, u32at buf 64, u32at buf 68, u32at buf 72⟩)
    else .ok (.other (u32at buf 0))

/-- `TockLoader._get_app_name(address, length)` (main.py lines 596-601):
length 0 yields the empty name without touching the board, otherwise the name
is the byte range read from flash.  Names are kept as byte lists; the
`.decode('utf-8')` of the source is injective on valid encodings, so equality
of byte lists models equality of the decoded strings. -/
def get_app_name (rd : Nat → Nat → Bytes) (address : Nat) (length : Nat) : Bytes :=
  if length = 0 then [] else rd address length

/-- The app walk of `TockLoader.list_apps` (main.py lines 198-238) with fuel:
read 76 bytes at the cursor, parse; version 1 records the app and advances by
`total_size`; any other version ends the walk.  `none` means the fuel ran out
before the loop ended. -/
def list_walk (rd : Nat → Nat → Bytes) :
    Nat → Nat → Option (Except PyErr (List (Nat × TbfFieldsV1)))
  | 0, _ => none
  | fuel+1, c =>
    match parse_tbf_header (rd c 76) with
    | .error e => some (.error e)
    | .ok (.other _) => some (.ok [])
    | .ok (.v1 f) =>
      match list_walk rd fuel (c + f.total_size) with
      | none => none
      | some (.error e) => some (.error e)
      | some (.ok l) => some (.ok ((c, f) :: l))

/-- Decision reached by the matching walk inside `replace_binary`. -/
inductive ReplaceDecision
  | foundAt (addr : Nat)
  | mismatch (want : Nat) (got : Nat)
  | notFound
deriving DecidableEq, Repr

/-- The walk of `TockLoader.replace_binary` (main.py lines 274-317): at each
version-1 header compare the installed app's name with the new image's name;
on a name match compare `total_size` values; a non-version-1 header ends the
walk with the not-found failure. -/
def replace_walk (rd : Nat → Nat → Bytes) (newName : Bytes) (newTotal : Nat) :
    Nat → Nat → Option (Except PyErr ReplaceDecision)
  | 0, _ => none
  | fuel+1, c =>
    match parse_tbf_header (rd c 76) with
    | .error e => some (.error e)
    | .ok (.other _) => some (.ok .notFound)
    | .ok (.v1 f) =>
      if get_app_name rd (c + f.package_name_offset) f.package_name_size = newName then
        if f.total_size = newTotal then some (.ok (.foundAt c))
        else some (.ok (.mismatch f.total_size newTotal))
      else replace_walk rd newName newTotal fuel (c + f.total_size)

/-- Name of an installed app recorded by the walk, fetched the way the source
does: `_get_app_name(start_address + package_name_offset, package_name_size)`. -/
def app_name_of (rd : Nat → Nat → Bytes) (p : Nat × TbfFieldsV1) : Bytes :=
  get_app_name rd (p.1 + p.2.package_name_offset) p.2.package_name_size

/-- Name the new image is matched under in `replace_binary` (main.py line 265):
the byte slice `binary[package_name_offset : package_name_offset +
package_name_size]` of the padded binary. -/
def new_app_name (binary : Bytes) (f : TbfFieldsV1) : Bytes :=
  ((pad512 binary).drop f.package_name_offset).take f.package_name_size

/-- Outcome of `TockLoader.replace_binary`. -/
inductive ReplaceOutcome
  | replaced
  | sizeMismatch (want : Nat) (got : Nat)
  | notFound
  | failed
  | crashed (e : PyErr)
deriving DecidableEq, Repr

/-- `TockLoader.replace_binary(binary, address)` (main.py lines 250-325),
after bootloader entry: pad, parse the new image's header (a non-version-1
image raises KeyError at the name slice), walk for the first name match; on a
size match flash the pages in place at the found address and compare the CRC;
on a size mismatch or a walk that ends without a name match fail without
issuing any page write. -/
def replace_binary (rd : Nat → Nat → Bytes) (acks : Nat → Bytes)
    (crcData : Bytes) (binary : Bytes) (address : Nat) (fuel : Nat) :
    Option (List Cmd × ReplaceOutcome) :=
  let padded := pad512 binary
  match parse_tbf_header padded with
  | .error e => some ([], .crashed e)
  | .ok (.other _) => some ([], .crashed .keyError)
  | .ok (.v1 f) =>
    match replace_walk rd (new_app_name binary f) f.total_size fuel address with
    | none => none
    | some (.error e) => some ([], .crashed e)
    | some (.ok .notFound) => some ([], .notFound)
    | some (.ok (.mismatch w g)) => some ([], .sizeMismatch w g)
    | some (.ok (.foundAt a)) =>
      let r := flash_pages acks a padded
      let cmds := r.1.map (fun p => Cmd.writePage p.1 p.2)
      match r.2 with
      | .error e => some (cmds, .crashed e)
      | .ok false => some (cmds, .failed)
      | .ok true =>
        match check_crc padded crcData with
        | .error e => some (cmds ++ [Cmd.crcFlash a padded.length], .crashed e)
        | .ok false => some (cmds ++ [Cmd.crcFlash a padded.length], .failed)
        | .ok true => some (cmds ++ [Cmd.crcFlash a padded.length], .replaced)

/-- Decision reached by the end-of-chain walk inside `append_binary`. -/
inductive AppendDecision
  | endAt (c : Nat)
  | unknownVersion (v : Nat)
deriving DecidableEq, Repr

/-- The walk of `TockLoader.append_binary` (main.py lines 346-364): version 1
advances by `total_size`; version 0, version 0xFFFFFFFF, or any version when
`force` is set, ends the walk at the cursor; any other version aborts. -/
def append_walk (rd : Nat → Nat → Bytes) (force : Bool) :
    Nat → Nat → Option (Except PyErr AppendDecision)
  | 0, _ => none
  | fuel+1, c =>
    match parse_tbf_header (rd c 76) with
    | .error e => some (.error e)
    | .ok (.v1 f) => append_walk rd force fuel (c + f.total_size)
    | .ok (.other v) =>
      if v = 0 ∨ v = 0xFFFFFFFF ∨ force = true then some (.ok (.endAt c))
      else some (.ok (.unknownVersion v))

/-- Outcome of `TockLoader.append_binary`. -/
inductive AppendOutcome
  | appended
  | unknownHeader (v : Nat)
  | failed
  | crashed (e : PyErr)
deriving DecidableEq, Repr

/-- `TockLoader.append_binary(binary, address, force)` (main.py lines
329-388), after bootloader entry: pad, walk for the end-of-chain cursor
(aborting on an unknown header version unless forced), then flash the pages at
the cursor, compare the CRC and erase the following page. -/
def append_binary (rd : Nat → Nat → Bytes) (acks : Nat → Bytes)
    (crcData : Bytes) (binary : Bytes) (address : Nat) (force : Bool)
    (fuel : Nat) : Option (List Cmd × AppendOutcome) :=
  let padded := pad512 binary
  match append_walk rd force fuel address with
  | none => none
  | some (.error e) => some ([], .crashed e)
  | some (.ok (.unknownVersion v)) => some ([], .unknownHeader v)
  | some (.ok (.endAt c)) =>
    let r := flash_pages acks c padded
    let cmds := r.1.map (fun p => Cmd.writePage p.1 p.2)
    match r.2 with
    | .error e => some (cmds, .crashed e)
    | .ok false => some (cmds, .failed)
    | .ok true =>
      match check_crc padded crcData with
      | .error e => some (cmds ++ [Cmd.crcFlash c padded.length], .crashed e)
      | .ok false => some (cmds ++ [Cmd.crcFlash c padded.length], .failed)
      | .ok true =>
        some (cmds ++ [Cmd.crcFlash c padded.length,
          Cmd.erasePage (c + padded.length)], .appended)

/-- Interface of a TBF header object as used by app_tab.py.  The class
implementing it (tbfh.py) is not part of the source under verification, so the
header is abstracted as the record of its accessor results:
`has_fixed_addresses()`, `get_fixed_addresses()`, `get_header_size()`,
`get_binary()` (the encoded header bytes) and `get_app_size()`. -/
structure Tbf where
  has_fixed_addresses : Bool
  fixed_addresses : List Int
  header_size : Nat
  header_binary : Bytes
  app_size : Nat
deriving DecidableEq, Repr

/-- One (TBF header, app binary) pair of a `TabApp` (app_tab.py line 25). -/
structure Variant where
  tbfh : Tbf
  app_binary : Bytes
deriving DecidableEq, Repr

/-- The selection loop of `TabApp.get_binary` (app_tab.py lines 117-133): scan
the variants in order, pick the first one that is not compiled for a fixed
address, or else the first fixed-address one whose first fixed flash address
minus its header size equals the target address.  Indexing
`get_fixed_addresses()[0]` of an empty list raises IndexError. -/
def variant_pick (address : Int) : List Variant → Except PyErr (Option Variant)
  | [] => .ok none
  | v :: rest =>
    if v.tbfh.has_fixed_addresses = false then .ok (some v)
    else
      match v.tbfh.fixed_addresses with
      | [] => .error .indexError
      | f :: _ =>
        if f - (v.tbfh.header_size : Int) = address then .ok (some v)
        else variant_pick address rest

/-- `TabApp.get_size` (app_tab.py lines 55-65): the agreed total size of the
bundle; `none` models the TockLoaderException raised when the variants
disagree or the bundle is empty. -/
def get_size (tbfs : List Variant) : Option Nat :=
  match tbfs with
  | [] => none
  | v :: rest =>
    if rest.all (fun w => w.tbfh.app_size = v.tbfh.app_size) then some v.tbfh.app_size
    else none

/-- `TabApp.get_binary(address)` (app_tab.py lines 108-149): select a variant,
return `none` when no variant matches, otherwise emit header bytes followed by
payload bytes, truncated to the agreed size when the emission is longer. -/
def get_binary (tbfs : List Variant) (address : Int) : Except PyErr (Option Bytes) :=
  match variant_pick address tbfs with
  | .error e => .error e
  | .ok none => .ok none
  | .ok (some v) =>
    match get_size tbfs with
    | none => .error .exception
    | some size =>
      let binary := v.tbfh.header_binary ++ v.app_binary
      .ok (some (if binary.length > size then binary.take size else binary))

/-- Boolean form of the per-variant pick condition scanned by
`TabApp.get_binary`: position independent, or first fixed flash address minus
header size equal to the target address. -/
def pick_pred (address : Int) (v : Variant) : Bool :=
  (!v.tbfh.has_fixed_addresses) ||
    decide (v.tbfh.fixed_addresses.headD 0 - (v.tbfh.header_size : Int) = address)

/-- Emission of a picked variant under agreed size `s`: header bytes followed
by payload bytes, truncated to `s` when longer. -/
def emit (s : Nat) (v : Variant) : Bytes :=
  if (v.tbfh.header_binary ++ v.app_binary).length > s then
    (v.tbfh.header_binary ++ v.app_binary).take s
  else v.tbfh.header_binary ++ v.app_binary

/-- `tbfh.set_app_size(size)` applied to one variant: rewrite the header's
total size field. -/
def set_app_size (size : Nat) (v : Variant) : Variant :=
  ⟨⟨v.tbfh.has_fixed_addresses, v.tbfh.fixed_addresses, v.tbfh.header_size,
    v.tbfh.header_binary, size⟩, v.app_binary⟩

/-- `TabApp.set_size(size)` (app_tab.py lines 75-86): iterate the variants in
order; a variant whose header size plus payload size exceeds `size` raises
(second component `false`), leaving that variant and all later ones
unmodified, while every earlier variant has already been rewritten. -/
def set_size (size : Nat) : List Variant → List Variant × Bool
  | [] => ([], true)
  | v :: rest =>
    if size < v.tbfh.header_size + v.app_binary.length then (v :: rest, false)
    else
      ((set_app_size size v) :: (set_size size rest).1, (set_size size rest).2)

/-- Acknowledgement oracle whose every read returns the two-byte OK response. -/
def acksOK : Nat → Bytes := fun _ => [ESCAPE_CHAR, RESPONSE_OK]

/-- Acknowledgement oracle whose every read times out with zero bytes. -/
def acksEmpty : Nat → Bytes := fun _ => []

/-- A 512-byte all-zero page. -/
def page0 : Bytes := List.replicate 512 0

/-- A 76-byte version-`version` TBF header whose total size field is `total`
and whose remaining fields are zero. -/
def demoHeader (version : Nat) (total : Nat) : Bytes :=
  u32le version ++ u32le total ++ List.replicate 68 0

/-- Version-1 fields with total size `t` and all other fields zero. -/
def demoFields (t : Nat) : TbfFieldsV1 :=
  ⟨t, 0, 0, 0, 0, 0, 0, 0, 0, 0, 0, 0, 0, 0, 0, 0, 0, 0⟩

/-- Demo flash for the termination claim: two version-1 apps of sizes 512 and
1024 starting at 0x30000, then erased flash. -/
def demoRdC5 : Nat → Nat → Bytes := fun c len =>
  if c = 0x30000 then demoHeader 1 512
  else if c = 0x30200 then demoHeader 1 1024
  else List.replicate len 0xFF

/-- The chain demoRdC5 holds. -/
def demoChainC5 : List (Nat × TbfFieldsV1) :=
  [(0x30000, demoFields 512), (0x30200, demoFields 1024)]

/-- Demo flash for the replace claim: one installed version-1 app of total
size 1024 with an empty package name at 0x30000, then erased flash. -/
def demoRdC2 : Nat → Nat → Bytes := fun c len =>
  if c = 0x30000 then demoHeader 1 1024 else List.replicate len 0xFF

/-- Demo replacement image: a 512-byte version-1 binary of total size 512 with
an empty package name. -/
def demoNewBin : Bytes := demoHeader 1 512 ++ List.replicate 436 0

/-- Demo flash for the append claim: a version-2 header at 0x30000. -/
def demoRdC6 : Nat → Nat → Bytes := fun c len =>
  if c = 0x30000 then demoHeader 2 0 else List.replicate len 0xFF

/-- Demo variant with header size 10 and a 20-byte payload. -/
def demoVarA : Variant := ⟨⟨false, [], 10, [], 100⟩, List.replicate 20 0⟩

/-- Demo variant with header size 10 and a 50-byte payload. -/
def demoVarB : Variant := ⟨⟨false, [], 10, [], 100⟩, List.replicate 50 0⟩

/-- Demo position-independent variant: 4 header bytes, 4 payload bytes,
agreed size 6 (so the emission is truncated). -/
def demoVarPIC : Variant := ⟨⟨false, [], 4, [1, 2, 3, 4], 6⟩, [9, 9, 9, 9]⟩

theorem escape_append (xs ys : Bytes) : escape (xs ++ ys) = escape xs ++ escape ys := by
  induction xs with
  | nil => simp [escape]
  | cons b rest ih => simp [escape, ih]

theorem escape_length (bs : Bytes) :
    (escape bs).length = bs.length + bs.count ESCAPE_CHAR := by
  induction bs with
  | nil => simp [escape]
  | cons b rest ih =>
    by_cases hb : b = ESCAPE_CHAR
    · subst hb
      simp [escape, ih, List.count_cons]
      omega
    · simp [escape, hb, ih, List.count_cons]
      omega

theorem chunk_length (binary : Bytes) (i : Nat) (h512 : binary.length % 512 = 0)
    (hi : i < binary.length / 512) :
    ((binary.drop (512 * i)).take 512).length = 512 := by
  have hq : binary.length / 512 * 512 = binary.length :=
    Nat.div_mul_cancel (Nat.dvd_of_mod_eq_zero h512)
  have hmul : (i + 1) * 512 ≤ binary.length / 512 * 512 :=
    Nat.mul_le_mul_right 512 hi
  simp only [List.length_take, List.length_drop]
  omega

theorem flash_pages_go_mem (acks : Nat → Bytes) (address : Nat) (binary : Bytes) :
    ∀ k i p, p ∈ (flash_pages_go acks address binary i k).1 →
      ∃ j, j < k ∧ p = (address + 512 * (i + j), (binary.drop (512 * (i + j))).take 512) := by
  intro k
  induction k with
  | zero => intro i p hp; simp [flash_pages_go] at hp
  | succ k ih =>
    intro i p hp
    simp only [flash_pages_go] at hp
    rcases hs : ack_status (acks i) with e | b
    · rw [hs] at hp
      simp at hp
      exact ⟨0, Nat.succ_pos k, by simpa using hp⟩
    · cases b
      · rw [hs] at hp
        simp at hp
        exact ⟨0, Nat.succ_pos k, by simpa using hp⟩
      · rw [hs] at hp
        simp at hp
        rcases hp with hp | hp
        · exact ⟨0, Nat.succ_pos k, by simpa using hp⟩
        · rcases ih (i+1) p hp with ⟨j, hj, hpj⟩
          refine ⟨j + 1, by omega, ?_⟩
          have : i + 1 + j = i + (j + 1) := by omega
          rw [this] at hpj
          exact hpj

theorem flash_pages_mem (acks : Nat → Bytes) (address : Nat) (binary : Bytes)
    (p : Nat × Bytes) (hp : p ∈ (flash_pages acks address binary).1) :
    ∃ j, j < binary.length / 512 ∧
      p = (address + 512 * j, (binary.drop (512 * j)).take 512) := by
  rcases flash_pages_go_mem acks address binary (binary.length / 512) 0 p hp with ⟨j, hj, hpj⟩
  exact ⟨j, hj, by simpa using hpj⟩

theorem ack_status_okAck : ack_status [ESCAPE_CHAR, RESPONSE_OK] = .ok true := rfl

theorem flash_pages_go_ok (acks : Nat → Bytes) (address : Nat) (binary : Bytes)
    (h : ∀ j, acks j = [ESCAPE_CHAR, RESPONSE_OK]) :
    ∀ k i, flash_pages_go acks address binary i k =
      ((List.range k).map
        (fun j => (address + 512 * (i + j), (binary.drop (512 * (i + j))).take 512)),
        .ok true) := by
  intro k
  induction k with
  | zero => intro i; simp [flash_pages_go]
  | succ k ih =>
    intro i
    have hs : ack_status (acks i) = .ok true := by rw [h i]; rfl
    have hfun : (List.range k).map
        ((fun j => (address + 512 * (i + j), (binary.drop (512 * (i + j))).take 512)) ∘ Nat.succ)
        = (List.range k).map
        (fun j => (address + 512 * (i + 1 + j), (binary.drop (512 * (i + 1 + j))).take 512)) := by
      apply List.map_congr_left
      intro a ha
      simp only [Function.comp]
      have hia : i + (a + 1) = i + 1 + a := by omega
      rw [Nat.succ_eq_add_one, hia]
    rw [List.range_succ_eq_map, List.map_cons, List.map_map, hfun]
    simp only [flash_pages_go, hs, ih (i+1)]
    simp

theorem flash_pages_ok (acks : Nat → Bytes) (address : Nat) (binary : Bytes)
    (h : ∀ j, acks j = [ESCAPE_CHAR, RESPONSE_OK]) :
    flash_pages acks address binary =
      ((List.range (binary.length / 512)).map
        (fun j => (address + 512 * j, (binary.drop (512 * j)).take 512)),
        .ok true) := by
  unfold flash_pages
  rw [flash_pages_go_ok acks address binary h]
  simp

theorem pad512_length_mod (b : Bytes) : (pad512 b).length % 512 = 0 := by
  unfold pad512
  by_cases h : b.length % 512 = 0
  · simp [h]
  · simp only [h, if_false]
    simp only [List.length_append, List.length_replicate]
    omega

theorem pad512_of_aligned (b : Bytes) (h : b.length % 512 = 0) : pad512 b = b := by
  simp [pad512, h]

theorem pad512_eq_append (b : Bytes) :
    pad512 b = b ++ List.replicate ((512 - b.length % 512) % 512) 0xFF := by
  unfold pad512
  by_cases h : b.length % 512 = 0
  · simp [h]
  · simp only [h, if_false]
    congr 2
    omega

theorem list_walk_succ_eq (rd : Nat → Nat → Bytes) (fuel c : Nat) :
    list_walk rd (fuel+1) c =
      match parse_tbf_header (rd c 76) with
      | .error e => some (.error e)
      | .ok (.other _) => some (.ok [])
      | .ok (.v1 f) =>
        match list_walk rd fuel (c + f.total_size) with
        | none => none
        | some (.error e) => some (.error e)
        | some (.ok l) => some (.ok ((c, f) :: l)) := rfl

theorem list_walk_mono (rd : Nat → Nat → Bytes) :
    ∀ n c r, list_walk rd n c = some r → list_walk rd (n+1) c = some r := by
  intro n
  induction n with
  | zero => intro c r h; simp [list_walk] at h
  | succ n ih =>
    intro c r h
    rw [list_walk_succ_eq] at h
    rw [list_walk_succ_eq]
    rcases hp : parse_tbf_header (rd c 76) with e | p
    · simp only [hp] at h ⊢; exact h
    · rcases p with f | v
      · simp only [hp] at h ⊢
        rcases hrec : list_walk rd n (c + f.total_size) with _ | r'
        · simp only [hrec] at h; simp at h
        · simp only [hrec] at h
          simp only [ih _ _ hrec]
          exact h
      · simp only [hp] at h ⊢; exact h

theorem list_walk_le (rd : Nat → Nat → Bytes) (n n' : Nat) (hle : n ≤ n')
    (c : Nat) (r : Except PyErr (List (Nat × TbfFieldsV1)))
    (h : list_walk rd n c = some r) : list_walk rd n' c = some r := by
  induction n' with
  | zero =>
    have : n = 0 := by omega
    subst this; exact h
  | succ n' ih =>
    rcases Nat.lt_or_ge n (n'+1) with hlt | hge
    · exact list_walk_mono rd n' c r (ih (by omega))
    · have : n = n' + 1 := by omega
      subst this; exact h

theorem list_walk_min (rd : Nat → Nat → Bytes) :
    ∀ n c l, list_walk rd n c = some (.ok l) →
      list_walk rd (l.length + 1) c = some (.ok l) := by
  intro n
  induction n with
  | zero => intro c l h; simp [list_walk] at h
  | succ n ih =>
    intro c l h
    rw [list_walk_succ_eq] at h
    rcases hp : parse_tbf_header (rd c 76) with e | p
    · simp only [hp] at h; simp at h
    · rcases p with f | v
      · simp only [hp] at h
        rcases hrec : list_walk rd n (c + f.total_size) with _ | r'
        · simp only [hrec] at h; simp at h
        · simp only [hrec] at h
          rcases r' with e | l'
          · simp at h
          · simp only [Option.some.injEq, Except.ok.injEq] at h
            subst h
            have ihl := ih _ _ hrec
            rw [List.length_cons, list_walk_succ_eq]
            simp only [hp, ihl]
      · simp only [hp] at h
        simp only [Option.some.injEq, Except.ok.injEq] at h
        subst h
        rw [list_walk_succ_eq]
        simp only [hp]

theorem length_mul_le_sum (l : List (Nat × TbfFieldsV1)) (m : Nat)
    (h : ∀ p ∈ l, m ≤ p.2.total_size) :
    l.length * m ≤ (l.map (fun p => p.2.total_size)).sum := by
  induction l with
  | nil => simp
  | cons p l ih =>
    simp only [List.length_cons, List.map_cons, List.sum_cons]
    have h1 : m ≤ p.2.total_size := h p (List.mem_cons_self p l)
    have h2 := ih (fun q hq => h q (List.mem_cons_of_mem p hq))
    have : (l.length + 1) * m = l.length * m + m := by ring
    omega

theorem replace_walk_succ_eq (rd : Nat → Nat → Bytes) (newName : Bytes)
    (newTotal fuel c : Nat) :
    replace_walk rd newName newTotal (fuel+1) c =
      match parse_tbf_header (rd c 76) with
      | .error e => some (.error e)
      | .ok (.other _) => some (.ok .notFound)
      | .ok (.v1 f) =>
        if get_app_name rd (c + f.package_name_offset) f.package_name_size = newName then
          if f.total_size = newTotal then some (.ok (.foundAt c))
          else some (.ok (.mismatch f.total_size newTotal))
        else replace_walk rd newName newTotal fuel (c + f.total_size) := rfl

theorem replace_walk_chain (rd : Nat → Nat → Bytes) (newName : Bytes) (newTotal : Nat) :
    ∀ n c l, list_walk rd n c = some (.ok l) →
      replace_walk rd newName newTotal n c = some (.ok (
        match l.find? (fun p => decide (app_name_of rd p = newName)) with
        | none => .notFound
        | some p =>
          if p.2.total_size = newTotal then .foundAt p.1
          else .mismatch p.2.total_size newTotal)) := by
  intro n
  induction n with
  | zero => intro c l h; simp [list_walk] at h
  | succ n ih =>
    intro c l h
    rw [list_walk_succ_eq] at h
    rw [replace_walk_succ_eq]
    rcases hp : parse_tbf_header (rd c 76) with e | p
    · simp only [hp] at h; simp at h
    · rcases p with f | v
      · simp only [hp] at h
        rcases hrec : list_walk rd n (c + f.total_size) with _ | r'
        · simp only [hrec] at h; simp at h
        · simp only [hrec] at h
          rcases r' with e | l'
          · simp at h
          · simp only [Option.some.injEq, Except.ok.injEq] at h
            subst h
            simp only [hp]
            by_cases hname :
                get_app_name rd (c + f.package_name_offset) f.package_name_size = newName
            · rw [if_pos hname]
              have hfind : List.find? (fun p => decide (app_name_of rd p = newName))
                  ((c, f) :: l') = some (c, f) :=
                List.find?_cons_of_pos _ (by simp [app_name_of, hname])
              simp only [hfind]
              by_cases hts : f.total_size = newTotal <;> simp [hts]
            · rw [if_neg hname]
              have hfind : List.find? (fun p => decide (app_name_of rd p = newName))
                  ((c, f) :: l') =
                  List.find? (fun p => decide (app_name_of rd p = newName)) l' :=
                List.find?_cons_of_neg _ (by simp [app_name_of, hname])
              simp only [hfind]
              exact ih _ _ hrec
      · simp only [hp] at h
        simp only [Option.some.injEq, Except.ok.injEq] at h
        subst h
        simp only [hp]
        rfl

theorem parse_other_ne_one (buf : Bytes) (v : Nat)
    (h : parse_tbf_header buf = .ok (.other v)) : v ≠ 1 := by
  unfold parse_tbf_header at h
  by_cases h4 : buf.length < 4
  · simp [h4] at h
  · simp only [h4, if_false] at h
    by_cases h1 : u32at buf 0 = 1
    · simp only [h1, if_true] at h
      by_cases h76 : buf.length < 76
      · simp [h76] at h
      · simp [h76] at h
    · simp only [h1, if_false] at h
      simp at h
      omega

theorem append_walk_unknown (rd : Nat → Nat → Bytes) (force : Bool) :
    ∀ fuel c v, append_walk rd force fuel c = some (.ok (.unknownVersion v)) →
      force = false ∧ v ≠ 0 ∧ v ≠ 0xFFFFFFFF ∧ v ≠ 1 := by
  intro fuel
  induction fuel with
  | zero => intro c v h; simp [append_walk] at h
  | succ fuel ih =>
    intro c v h
    simp only [append_walk] at h
    rcases hp : parse_tbf_header (rd c 76) with e | p
    · rw [hp] at h; simp at h
    · rcases p with f | v'
      · rw [hp] at h
        exact ih _ _ h
      · rw [hp] at h
        by_cases hcond : v' = 0 ∨ v' = 0xFFFFFFFF ∨ force = true
        · simp [hcond] at h
        · simp only [hcond, if_false] at h
          simp at h
          rcases h with ⟨rfl⟩
          push_neg at hcond
          exact ⟨by simpa using hcond.2.2, hcond.1, hcond.2.1,
            parse_other_ne_one _ _ hp⟩

theorem variant_pick_eq_find (address : Int) :
    ∀ tbfs : List Variant,
      (∀ v ∈ tbfs, v.tbfh.has_fixed_addresses = true → v.tbfh.fixed_addresses ≠ []) →
      variant_pick address tbfs = .ok (tbfs.find? (pick_pred address)) := by
  intro tbfs
  induction tbfs with
  | nil => intro _; simp [variant_pick]
  | cons v rest ih =>
    intro hfix
    by_cases hv : v.tbfh.has_fixed_addresses = false
    · have hpred : pick_pred address v = true := by simp [pick_pred, hv]
      simp [variant_pick, hv, List.find?_cons_of_pos _ hpred]
    · have hv' : v.tbfh.has_fixed_addresses = true := by
        cases h : v.tbfh.has_fixed_addresses
        · exact absurd h hv
        · rfl
      rcases hfa : v.tbfh.fixed_addresses with _ | ⟨f, fs⟩
      · exact absurd hfa (hfix v (List.mem_cons_self v rest) hv')
      · by_cases hmatch : f - (v.tbfh.header_size : Int) = address
        · have hpred : pick_pred address v = true := by
            simp [pick_pred, hv', hfa, hmatch]
          simp [variant_pick, hv, hfa, hmatch, List.find?_cons_of_pos _ hpred]
        · have hpred : pick_pred address v = false := by
            simp [pick_pred, hv', hfa, hmatch]
          rw [List.find?_cons_of_neg _ (by simp [hpred])]
          simp only [variant_pick, hv, if_false, hfa]
          rw [if_neg hmatch]
          exact ih (fun w hw => hfix w (List.mem_cons_of_mem v hw))

theorem flash_pages_go_crash (acks : Nat → Bytes) (address : Nat) (binary : Bytes) :
    ∀ m k i, m < k → (∀ j, j < m → acks (i + j) = [ESCAPE_CHAR, RESPONSE_OK]) →
      acks (i + m) = [] →
      (flash_pages_go acks address binary i k).2 = .error .indexError := by
  intro m
  induction m with
  | zero =>
    intro k i hk hok hempty
    rcases k with _ | k
    · omega
    · have ha : acks i = [] := by simpa using hempty
      have hs : ack_status (acks i) = .error .indexError := by rw [ha]; rfl
      simp [flash_pages_go, hs]
  | succ m ih =>
    intro k i hk hok hempty
    rcases k with _ | k
    · omega
    · have ha : acks i = [ESCAPE_CHAR, RESPONSE_OK] := by
        simpa using hok 0 (by omega)
      have hs : ack_status (acks i) = .ok true := by rw [ha]; rfl
      simp only [flash_pages_go, hs]
      apply ih k (i+1) (by omega)
      · intro j hj
        have hj1 := hok (j+1) (by omega)
        have heq : i + (j + 1) = i + 1 + j := by omega
        rw [heq] at hj1
        exact hj1
      · have heq : i + (m + 1) = i + 1 + m := by omega
        rw [heq] at hempty
        exact hempty

theorem set_size_stops (size : Nat) :
    ∀ (k : Nat) (l : List Variant) (hk : k < l.length),
      (∀ v ∈ l.take k, v.tbfh.header_size + v.app_binary.length ≤ size) →
      size < (l.get ⟨k, hk⟩).tbfh.header_size + (l.get ⟨k, hk⟩).app_binary.length →
      set_size size l = ((l.take k).map (set_app_size size) ++ l.drop k, false) := by
  intro k
  induction k with
  | zero =>
    intro l hk hbefore hviol
    rcases l with _ | ⟨v, rest⟩
    · simp at hk
    · have hv : size < v.tbfh.header_size + v.app_binary.length := by simpa using hviol
      simp [set_size, hv]
  | succ k ih =>
    intro l hk hbefore hviol
    rcases l with _ | ⟨v, rest⟩
    · simp at hk
    · have hv : v.tbfh.header_size + v.app_binary.length ≤ size := by
        apply hbefore
        rw [List.take_succ_cons]
        exact List.mem_cons_self v _
      have hnot : ¬ size < v.tbfh.header_size + v.app_binary.length := by omega
      have hk' : k < rest.length := by simpa using hk
      have hb' : ∀ w ∈ rest.take k, w.tbfh.header_size + w.app_binary.length ≤ size := by
        intro w hw
        apply hbefore
        rw [List.take_succ_cons]
        exact List.mem_cons_of_mem v hw
      have hviol' : size < (rest.get ⟨k, hk'⟩).tbfh.header_size +
          (rest.get ⟨k, hk'⟩).app_binary.length := hviol
      have ihr := ih rest hk' hb' hviol'
      simp only [set_size, hnot, if_false, ihr]
      simp [List.take_succ_cons, List.drop_succ_cons]

theorem escape_of_no_escape (bs : Bytes) (h : bs.count ESCAPE_CHAR = 0) :
    escape bs = bs := by
  induction bs with
  | nil => rfl
  | cons b rest ih =>
    rw [List.count_cons] at h
    by_cases hb : b = ESCAPE_CHAR
    · subst hb
      simp at h
    · have hrest : rest.count ESCAPE_CHAR = 0 := by
        have : (if b == ESCAPE_CHAR then 1 else 0) = 0 := by simp [hb]
        omega
      simp [escape, hb, ih hrest]

/-- Claim C1, counterexample: at page address 0xFC00 (whose little-endian
encoding contains the byte 0xFC) the flashing loop issues a page write whose
transmitted frame is not of the claimed shape `sync ++ address ++
escape(page) ++ terminator`, because the source escapes the address bytes
together with the page; the escaped portion is also longer than
512 + (count of 0xFC in the page). -/
theorem claim_C1_counterexample :
    (flash_pages acksOK 0xFC00 page0).1 = [(0xFC00, page0)] ∧
    writePageFrame 0xFC00 page0 ≠ writePageFrameClaimed 0xFC00 page0 ∧
    (escape (u32le 0xFC00 ++ page0)).length ≠ 512 + page0.count ESCAPE_CHAR := by
  refine ⟨by decide, by decide, by decide⟩

/-- Claim C1 (amended): for every page write issued during flashing of a
512-aligned binary, the transmitted frame is the sync preamble followed by the
escaped concatenation of the 4-byte little-endian page address and the
512-byte page (escape doubling applied to both, which factors as
`escape(address) ++ escape(page)`), then the terminator 0xFC 0x07; the escaped
portion's length is 516 + (count of 0xFC in the address bytes) + (count of
0xFC in the page), and when the address bytes contain no 0xFC byte the frame
coincides with the shape the claim states. -/
theorem claim_C1_page_frames (acks : Nat → Bytes) (address : Nat) (binary : Bytes)
    (h512 : binary.length % 512 = 0) :
    ∀ p ∈ (flash_pages acks address binary).1,
      writePageFrame p.1 p.2 =
        SYNC_MESSAGE ++ escape (u32le p.1) ++ escape p.2 ++
          [ESCAPE_CHAR, COMMAND_WRITE_PAGE] ∧
      p.2.length = 512 ∧
      (escape (u32le p.1 ++ p.2)).length =
        516 + (u32le p.1).count ESCAPE_CHAR + p.2.count ESCAPE_CHAR ∧
      ((u32le p.1).count ESCAPE_CHAR = 0 →
        writePageFrame p.1 p.2 = writePageFrameClaimed p.1 p.2) := by
  intro p hp
  rcases flash_pages_mem acks address binary p hp with ⟨j, hj, rfl⟩
  dsimp only
  have hlen : ((binary.drop (512 * j)).take 512).length = 512 :=
    chunk_length binary j h512 hj
  refine ⟨?_, hlen, ?_, ?_⟩
  · simp [writePageFrame, escape_append, List.append_assoc]
  · rw [escape_length, List.count_append, List.length_append, hlen]
    have h4 : (u32le (address + 512 * j)).length = 4 := by simp [u32le]
    omega
  · intro h0
    simp only [writePageFrame, writePageFrameClaimed, escape_append,
      escape_of_no_escape _ h0, List.append_assoc]

/-- Claim C1, witness: the amended statement evaluated on a concrete flashing
run of one all-zero page at address 0x30000. -/
theorem claim_C1_page_frames_witness :
    writePageFrame 0x30000 page0 =
      SYNC_MESSAGE ++ escape (u32le 0x30000) ++ escape page0 ++
        [ESCAPE_CHAR, COMMAND_WRITE_PAGE] ∧
    page0.length = 512 ∧
    (escape (u32le 0x30000 ++ page0)).length =
      516 + (u32le 0x30000).count ESCAPE_CHAR + page0.count ESCAPE_CHAR ∧
    ((u32le 0x30000).count ESCAPE_CHAR = 0 →
      writePageFrame 0x30000 page0 = writePageFrameClaimed 0x30000 page0) :=
  claim_C1_page_frames acksOK 0x30000 page0 (by decide) (0x30000, page0) (by decide)

/-- Claim C8, counterexample: when the read returns the single byte 0xFC, the
generic issuer fails but its error value is the empty byte string, so it does
not carry the header bytes of the response (ret[0:2] would be [0xFC]). -/
theorem claim_C8_counterexample :
    (issue_command 4 0x20 [0xFC]).1 = false ∧
    (issue_command 4 0x20 [0xFC]).2 = [] ∧
    ([0xFC] : Bytes).take 2 = [0xFC] ∧
    (issue_command 4 0x20 [0xFC]).2 ≠ ([0xFC] : Bytes).take 2 := by
  refine ⟨by decide, by decide, by decide, by decide⟩

/-- Claim C8 (amended): the issuer succeeds returning exactly the
`response_len` payload bytes if and only if the read returned all
`2 + response_len` bytes with first byte 0xFC and second byte equal to the
expected response code; on a mismatch where at least two bytes were read the
error value carries the first two header bytes of the response, and on a read
shorter than two bytes the error value is empty. -/
theorem claim_C8_amended (response_len response_code : Nat) (ret : Bytes) :
    ((issue_command response_len response_code ret).1 = true ↔
      ret.length = 2 + response_len ∧ ret.getD 0 0 = ESCAPE_CHAR ∧
        ret.getD 1 0 = response_code) ∧
    ((issue_command response_len response_code ret).1 = true →
      (issue_command response_len response_code ret).2 = ret.drop 2 ∧
        (ret.drop 2).length = response_len) ∧
    ((issue_command response_len response_code ret).1 = false →
      (issue_command response_len response_code ret).2 =
        if ret.length < 2 then [] else ret.take 2) := by
  rcases ret with _ | ⟨r0, ret'⟩
  · refine ⟨?_, ?_, ?_⟩
    · constructor
      · intro hfalse; simp [issue_command] at hfalse
      · rintro ⟨hlen, -, -⟩; exfalso; simp at hlen; omega
    · intro hfalse; simp [issue_command] at hfalse
    · intro _; simp [issue_command]
  · rcases ret' with _ | ⟨r1, rest⟩
    · refine ⟨?_, ?_, ?_⟩
      · constructor
        · intro hfalse; simp [issue_command] at hfalse
        · rintro ⟨hlen, -, -⟩; exfalso; simp at hlen; omega
      · intro hfalse; simp [issue_command] at hfalse
      · intro _; simp [issue_command]
    · have hlen2 : ¬ (r0 :: r1 :: rest : Bytes).length < 2 := by simp
      by_cases h2 : r0 = ESCAPE_CHAR
      · subst h2
        by_cases h3 : r1 = response_code
        · subst h3
          by_cases h4 : rest.length + 1 + 1 = 2 + response_len
          · have hissue : issue_command response_len r1
                (ESCAPE_CHAR :: r1 :: rest) = (true, rest) := by
              simp only [issue_command, List.length_cons]
              rw [if_neg (by omega), if_neg (by simp), if_neg (by simp),
                if_neg (not_not_intro h4)]
              simp
            refine ⟨?_, ?_, ?_⟩
            · constructor
              · intro _
                exact ⟨by simp; omega, by simp, by simp⟩
              · intro _
                rw [hissue]
            · intro _
              refine ⟨by simp [hissue], ?_⟩
              simp only [List.length_drop, List.length_cons]
              omega
            · intro hfalse; rw [hissue] at hfalse; simp at hfalse
          · have hissue : issue_command response_len r1
                (ESCAPE_CHAR :: r1 :: rest) = (false, [ESCAPE_CHAR, r1]) := by
              simp only [issue_command, List.length_cons]
              rw [if_neg (by omega), if_neg (by simp), if_neg (by simp),
                if_pos (by omega)]
              simp
            refine ⟨?_, ?_, ?_⟩
            · constructor
              · intro hfalse; rw [hissue] at hfalse; simp at hfalse
              · rintro ⟨hlen, -, -⟩
                simp only [List.length_cons] at hlen
                exact absurd hlen h4
            · intro hfalse; rw [hissue] at hfalse; simp at hfalse
            · intro _
              rw [if_neg hlen2, hissue]
              simp
        · have hissue : issue_command response_len response_code
              (ESCAPE_CHAR :: r1 :: rest) = (false, [ESCAPE_CHAR, r1]) := by
            simp only [issue_command, List.length_cons]
            rw [if_neg (by omega), if_neg (by simp), if_pos (by simp [h3])]
            simp
          refine ⟨?_, ?_, ?_⟩
          · constructor
            · intro hfalse; rw [hissue] at hfalse; simp at hfalse
            · rintro ⟨-, -, hcode⟩
              simp at hcode
              exact absurd hcode h3
          · intro hfalse; rw [hissue] at hfalse; simp at hfalse
          · intro _
            rw [if_neg hlen2, hissue]
            simp
      · have hissue : issue_command response_len response_code (r0 :: r1 :: rest) =
            (false, [r0, r1]) := by
          simp only [issue_command, List.length_cons]
          rw [if_neg (by omega), if_pos (by simp [h2])]
          simp
        refine ⟨?_, ?_, ?_⟩
        · constructor
          · intro hfalse; rw [hissue] at hfalse; simp at hfalse
          · rintro ⟨-, hesc, -⟩
            simp at hesc
            exact absurd hesc h2
        · intro hfalse; rw [hissue] at hfalse; simp at hfalse
        · intro _
          rw [if_neg hlen2, hissue]
          simp

/-- Claim C8, witness: the amended statement evaluated at a successful
read of a 3-byte response with payload length 1 and code 0x20. -/
theorem claim_C8_amended_witness :
    ((issue_command 1 0x20 [0xFC, 0x20, 7]).1 = true ↔
      ([0xFC, 0x20, 7] : Bytes).length = 2 + 1 ∧
        ([0xFC, 0x20, 7] : Bytes).getD 0 0 = ESCAPE_CHAR ∧
        ([0xFC, 0x20, 7] : Bytes).getD 1 0 = 0x20) ∧
    ((issue_command 1 0x20 [0xFC, 0x20, 7]).1 = true →
      (issue_command 1 0x20 [0xFC, 0x20, 7]).2 = ([0xFC, 0x20, 7] : Bytes).drop 2 ∧
        (([0xFC, 0x20, 7] : Bytes).drop 2).length = 1) ∧
    ((issue_command 1 0x20 [0xFC, 0x20, 7]).1 = false →
      (issue_command 1 0x20 [0xFC, 0x20, 7]).2 =
        if ([0xFC, 0x20, 7] : Bytes).length < 2 then [] else ([0xFC, 0x20, 7] : Bytes).take 2) :=
  claim_C8_amended 1 0x20 [0xFC, 0x20, 7]

/-- Claim C9: after each page write the two-byte acknowledgement read is
indexed without a length guard; when the read for page `i` returns no bytes
(a timeout) while all earlier pages were acknowledged, the flashing loop ends
in an IndexError instead of a clean Boolean failure. -/
theorem claim_C9 (acks : Nat → Bytes) (address : Nat) (binary : Bytes) (i : Nat)
    (hi : i < binary.length / 512)
    (hok : ∀ j, j < i → acks j = [ESCAPE_CHAR, RESPONSE_OK])
    (hempty : acks i = []) :
    (flash_pages acks address binary).2 = .error .indexError := by
  unfold flash_pages
  apply flash_pages_go_crash acks address binary i (binary.length / 512) 0 hi
  · intro j hj
    simpa using hok j hj
  · simpa using hempty

/-- Claim C9, witness: flashing one page against a transport whose reads
return no bytes raises the indexing error. -/
theorem claim_C9_witness :
    0 < page0.length / 512 ∧ (flash_pages acksEmpty 0 page0).2 = .error .indexError :=
  ⟨by decide, claim_C9 acksEmpty 0 page0 0 (by decide)
    (fun j hj => absurd hj (Nat.not_lt_zero j)) rfl⟩

/-- Claim C10: `set_size(n)` is not atomic on failure; when variant `k` is the
first to violate `n >= header_size + payload_size`, the call fails with every
variant before `k` already rewritten to total size `n` and the rest untouched. -/
theorem claim_C10 (size : Nat) (l : List Variant) (k : Nat) (hk : k < l.length)
    (hbefore : ∀ v ∈ l.take k, v.tbfh.header_size + v.app_binary.length ≤ size)
    (hviol : size < (l.get ⟨k, hk⟩).tbfh.header_size +
      (l.get ⟨k, hk⟩).app_binary.length) :
    set_size size l = ((l.take k).map (set_app_size size) ++ l.drop k, false) :=
  set_size_stops size k l hk hbefore hviol

/-- Claim C10, witness: a two-variant bundle where the second variant violates
the size bound is left with the first variant mutated. -/
theorem claim_C10_witness :
    set_size 40 [demoVarA, demoVarB] = ([set_app_size 40 demoVarA, demoVarB], false) :=
  claim_C10 40 [demoVarA, demoVarB] 1 (by decide) (by decide) (by decide)

/-- Claim C4: `flash(b, a)` pads `b` with 0xFF bytes up to the next multiple
of 512 (leaving `b` unchanged when already aligned), issues one page write per
512-byte chunk at addresses a, a+512, a+1024, ..., then requests the target
CRC over the full padded length and compares it, then issues
`erase_page(a + padded_length)`. -/
theorem claim_C4 (acks : Nat → Bytes) (crcData : Bytes) (binary : Bytes) (address : Nat)
    (hacks : ∀ i, acks i = [ESCAPE_CHAR, RESPONSE_OK])
    (hcrc : check_crc (pad512 binary) crcData = .ok true) :
    flash_binary acks crcData binary address =
      ((List.range ((pad512 binary).length / 512)).map
        (fun i => Cmd.writePage (address + 512 * i)
          (((pad512 binary).drop (512 * i)).take 512)) ++
        [Cmd.crcFlash address (pad512 binary).length,
          Cmd.erasePage (address + (pad512 binary).length)], .done) ∧
    (pad512 binary).length % 512 = 0 ∧
    (binary.length % 512 = 0 → pad512 binary = binary) ∧
    pad512 binary = binary ++ List.replicate ((512 - binary.length % 512) % 512) 0xFF := by
  refine ⟨?_, pad512_length_mod binary, pad512_of_aligned binary, pad512_eq_append binary⟩
  unfold flash_binary
  simp only [flash_pages_ok acks address (pad512 binary) hacks, hcrc, List.map_map]
  simp [Function.comp]

/-- Claim C4, witness: flashing the empty binary at 0x30000 issues no page
writes, one CRC request of length 0, and an erase of the next page. -/
theorem claim_C4_witness :
    flash_binary acksOK [0, 0, 0, 0] [] 0x30000 =
      ((List.range ((pad512 ([] : Bytes)).length / 512)).map
        (fun i => Cmd.writePage (0x30000 + 512 * i)
          (((pad512 ([] : Bytes)).drop (512 * i)).take 512)) ++
        [Cmd.crcFlash 0x30000 (pad512 ([] : Bytes)).length,
          Cmd.erasePage (0x30000 + (pad512 ([] : Bytes)).length)], .done) ∧
    (pad512 ([] : Bytes)).length % 512 = 0 ∧
    (([] : Bytes).length % 512 = 0 → pad512 ([] : Bytes) = []) ∧
    pad512 ([] : Bytes) =
      [] ++ List.replicate ((512 - ([] : Bytes).length % 512) % 512) 0xFF :=
  claim_C4 acksOK [0, 0, 0, 0] [] 0x30000 (fun _ => rfl) (by rfl)

/-- Claim C7: the local CRC is the crcmod CRC-32 with generator polynomial
0x104C11DB7 (bit-reflected, so the update uses its 32-bit reversal), initial
value 0 and final xor 0xFFFFFFFF, over exactly the bytes passed to the check;
verification succeeds if and only if this value equals the little-endian
decode of the first four reply bytes, and a mismatch fails the enclosing
flash operation. -/
theorem claim_C7 (binary crcData : Bytes) (acks : Nat → Bytes) (address : Nat) :
    crc32_rev_poly = bitrev32 (0x104C11DB7 % 2 ^ 32) ∧
    crc_loader binary = (binary.foldl crc32_update_byte (0 ^^^ 0xFFFFFFFF)) ^^^ 0xFFFFFFFF ∧
    (check_crc binary crcData = .ok true ↔
      4 ≤ crcData.length ∧ u32at crcData 0 = crc_loader binary) ∧
    ((∀ i, acks i = [ESCAPE_CHAR, RESPONSE_OK]) →
      check_crc (pad512 binary) crcData = .ok false →
      (flash_binary acks crcData binary address).2 = .failed) := by
  refine ⟨by decide, rfl, ?_, ?_⟩
  · unfold check_crc
    by_cases h4 : crcData.length < 4
    · rw [if_pos h4]
      constructor
      · intro h; simp at h
      · rintro ⟨hlen, -⟩; omega
    · rw [if_neg h4]
      constructor
      · intro h
        simp only [Except.ok.injEq] at h
        refine ⟨by omega, by simpa using h⟩
      · rintro ⟨-, heq⟩
        simp [heq]
  · intro hacks hbad
    unfold flash_binary
    simp [flash_pages_ok acks address (pad512 binary) hacks, hbad]

/-- Claim C7, witness: the CRC of the empty byte string is 0 and the check
accepts the reply 00 00 00 00 for it. -/
theorem claim_C7_witness :
    check_crc [] [0, 0, 0, 0] = .ok true :=
  (claim_C7 [] [0, 0, 0, 0] acksOK 0).2.2.1.mpr ⟨by decide, by rfl⟩

/-- Claim C5: a chain the app walk reads whose headers all have total size at
least `m > 0` and whose sizes sum to at most the region size `R` contains at
most `R / m` apps, and the walk terminates within fuel `R / m + 1` with that
same chain. -/
theorem claim_C5 (rd : Nat → Nat → Bytes) (start R m n : Nat)
    (l : List (Nat × TbfFieldsV1))
    (hwalk : list_walk rd n start = some (.ok l))
    (hmin : ∀ p ∈ l, m ≤ p.2.total_size)
    (hm : 0 < m)
    (hR : (l.map (fun p => p.2.total_size)).sum ≤ R) :
    l.length ≤ R / m ∧ list_walk rd (R / m + 1) start = some (.ok l) := by
  have hlen : l.length * m ≤ R := le_trans (length_mul_le_sum l m hmin) hR
  have hdiv : l.length ≤ R / m := (Nat.le_div_iff_mul_le hm).mpr hlen
  refine ⟨hdiv, ?_⟩
  exact list_walk_le rd (l.length + 1) (R / m + 1) (by omega) start (.ok l)
    (list_walk_min rd n start l hwalk)

/-- Claim C5, witness: a concrete two-app chain (sizes 512 and 1024) in a
1536-byte region is walked to completion within 1536/512 = 3 steps. -/
theorem claim_C5_witness :
    demoChainC5.length ≤ 1536 / 512 ∧
    list_walk demoRdC5 (1536 / 512 + 1) 0x30000 = some (.ok demoChainC5) :=
  claim_C5 demoRdC5 0x30000 1536 512 3 demoChainC5 (by rfl) (by decide) (by decide)
    (by decide)

/-- Claim C2: replace walks the installed-app chain from the start address and
stops at the first installed app whose package name equals the new image's
package name (`find?` over the chain the walk reads); if that app's total
size equals the new image's it overwrites it in place at that app's address
and verifies the CRC; if the sizes differ it fails with want = the installed
app's total size and have = the new image's total size without issuing any
page write; and if the walk ends without a name match it fails with the
not-found error without issuing any page write. -/
theorem claim_C2 (rd : Nat → Nat → Bytes) (acks : Nat → Bytes) (crcData : Bytes)
    (binary : Bytes) (address n : Nat) (f : TbfFieldsV1) (l : List (Nat × TbfFieldsV1))
    (hparse : parse_tbf_header (pad512 binary) = .ok (.v1 f))
    (hchain : list_walk rd n address = some (.ok l)) :
    (l.find? (fun p => decide (app_name_of rd p = new_app_name binary f)) = none →
      replace_binary rd acks crcData binary address n = some ([], .notFound)) ∧
    (∀ p, l.find? (fun p => decide (app_name_of rd p = new_app_name binary f)) = some p →
      p.2.total_size ≠ f.total_size →
      replace_binary rd acks crcData binary address n =
        some ([], .sizeMismatch p.2.total_size f.total_size)) ∧
    (∀ p, l.find? (fun p => decide (app_name_of rd p = new_app_name binary f)) = some p →
      p.2.total_size = f.total_size →
      (∀ i, acks i = [ESCAPE_CHAR, RESPONSE_OK]) →
      check_crc (pad512 binary) crcData = .ok true →
      replace_binary rd acks crcData binary address n =
        some ((List.range ((pad512 binary).length / 512)).map
          (fun i => Cmd.writePage (p.1 + 512 * i)
            (((pad512 binary).drop (512 * i)).take 512)) ++
          [Cmd.crcFlash p.1 (pad512 binary).length], .replaced)) := by
  have hwalk := replace_walk_chain rd (new_app_name binary f) f.total_size n address l hchain
  refine ⟨?_, ?_, ?_⟩
  · intro hfind
    simp only [hfind] at hwalk
    unfold replace_binary
    simp only [hparse, hwalk]
  · intro p hfind hne
    simp only [hfind] at hwalk
    rw [if_neg hne] at hwalk
    unfold replace_binary
    simp only [hparse, hwalk]
  · intro p hfind heq hacks hcrc
    simp only [hfind] at hwalk
    rw [if_pos heq] at hwalk
    unfold replace_binary
    simp only [hparse, hwalk, flash_pages_ok acks p.1 (pad512 binary) hacks, hcrc,
      List.map_map]
    simp [Function.comp]

/-- Claim C2, witness: replacing a 512-byte image whose name matches the
installed 1024-byte app fails with the size mismatch (want 1024, have 512) and
issues no page write. -/
theorem claim_C2_witness :
    replace_binary demoRdC2 acksOK [] demoNewBin 0x30000 2 =
      some ([], .sizeMismatch 1024 512) :=
  (claim_C2 demoRdC2 acksOK [] demoNewBin 0x30000 2 (demoFields 512)
    [(0x30000, demoFields 1024)] (by rfl) (by rfl)).2.1
    (0x30000, demoFields 1024) (by rfl) (by decide)

/-- Claim C6: append walks from the address advancing by total size over every
version-1 header; a header whose version is not 1, 0 or 0xFFFFFFFF with
force unset aborts with an unknown-header-version error without writing any
page; with force set the walk can never end in that error; and when the walk
ends at a cursor (end-of-chain version, or any non-1 version under force) the
binary is flashed there with pages, CRC check and erase of the following page
as in flash. -/
theorem claim_C6 (rd : Nat → Nat → Bytes) (acks : Nat → Bytes) (crcData : Bytes)
    (binary : Bytes) (address : Nat) (force : Bool) (fuel : Nat) :
    (∀ v, append_walk rd false fuel address = some (.ok (.unknownVersion v)) →
      (v ≠ 0 ∧ v ≠ 0xFFFFFFFF ∧ v ≠ 1) ∧
      append_binary rd acks crcData binary address false fuel =
        some ([], .unknownHeader v)) ∧
    (∀ v, append_walk rd true fuel address ≠ some (.ok (.unknownVersion v))) ∧
    (∀ c, append_walk rd force fuel address = some (.ok (.endAt c)) →
      (∀ i, acks i = [ESCAPE_CHAR, RESPONSE_OK]) →
      check_crc (pad512 binary) crcData = .ok true →
      append_binary rd acks crcData binary address force fuel =
        some ((List.range ((pad512 binary).length / 512)).map
          (fun i => Cmd.writePage (c + 512 * i)
            (((pad512 binary).drop (512 * i)).take 512)) ++
          [Cmd.crcFlash c (pad512 binary).length,
            Cmd.erasePage (c + (pad512 binary).length)], .appended)) := by
  refine ⟨?_, ?_, ?_⟩
  · intro v hv
    have hchar := append_walk_unknown rd false fuel address v hv
    refine ⟨⟨hchar.2.1, hchar.2.2.1, hchar.2.2.2⟩, ?_⟩
    unfold append_binary
    simp only [hv]
  · intro v hv
    have hchar := append_walk_unknown rd true fuel address v hv
    exact absurd hchar.1 (by simp)
  · intro c hc hacks hcrc
    unfold append_binary
    simp only [hc, flash_pages_ok acks c (pad512 binary) hacks, hcrc, List.map_map]
    simp [Function.comp]

/-- Claim C6, witness: a version-2 header at the start address makes
`append(..., force=false)` abort with the unknown-header error and no page
write. -/
theorem claim_C6_witness :
    append_binary demoRdC6 acksOK [] [] 0x30000 false 1 =
      some ([], .unknownHeader 2) :=
  ((claim_C6 demoRdC6 acksOK [] [] 0x30000 false 1).1 2 (by rfl)).2

/-- Claim C3: `get_binary(a)` scans the variants in order and picks the first
one satisfying the per-variant condition (position independent, or first
fixed flash address minus header size equal to `a`); it returns none if and
only if no variant is picked, and otherwise emits header bytes followed by
payload bytes, truncated to the bundle's agreed size when the emission is
longer and returned unchanged when shorter. -/
theorem claim_C3 (tbfs : List Variant) (address : Int) (s : Nat)
    (hsize : get_size tbfs = some s)
    (hfix : ∀ v ∈ tbfs, v.tbfh.has_fixed_addresses = true →
      v.tbfh.fixed_addresses ≠ []) :
    get_binary tbfs address = .ok ((tbfs.find? (pick_pred address)).map (emit s)) ∧
    (get_binary tbfs address = .ok none ↔ tbfs.find? (pick_pred address) = none) := by
  have hpick := variant_pick_eq_find address tbfs hfix
  have hmain : get_binary tbfs address =
      .ok ((tbfs.find? (pick_pred address)).map (emit s)) := by
    unfold get_binary
    rw [hpick]
    rcases hfind : tbfs.find? (pick_pred address) with _ | v
    · rfl
    · simp only [hsize]
      simp [emit]
  refine ⟨hmain, ?_⟩
  rw [hmain]
  constructor
  · intro h
    simp only [Except.ok.injEq] at h
    exact Option.map_eq_none'.mp h
  · intro h
    rw [h]
    rfl

/-- Claim C3, witness: a one-variant bundle with a position-independent
variant of agreed size 6 emits its 8-byte concatenation truncated to 6
bytes. -/
theorem claim_C3_witness :
    get_binary [demoVarPIC] 0 = .ok (([demoVarPIC].find? (pick_pred 0)).map (emit 6)) ∧
    (get_binary [demoVarPIC] 0 = .ok none ↔ [demoVarPIC].find? (pick_pred 0) = none) :=
  claim_C3 [demoVarPIC] 0 6 (by rfl) (by decide)

end Tockloader
